import Mathlib

/-!
Shallow embedding of the slide-presentation core (markdown parser, rich-text
encoder/decoder, auto-layout engine, table column sizing, and the slide
lifecycle manager) together with theorems settling the specification claims.

Strings are modelled as `List Char` (`Line`).  JavaScript string/regex
operations used by the source are modelled by explicit total functions.
Operations that can throw in JavaScript (indexing an undefined array slot and
then dereferencing it) are modelled with `Option`, `none` meaning an exception.
-/

abbrev Line := List Char

/-- JS whitespace predicate used by `trim` and by the regex class `\s`. -/
def jsWs (c : Char) : Bool :=
  c == ' ' || c == '\t' || c == '\n' || c == '\r' || c == '\x0b' || c == '\x0c'

/-- Right-trim: drop trailing whitespace characters. -/
def trimRight : Line → Line
  | [] => []
  | c :: l =>
    match trimRight l with
    | [] => if jsWs c then [] else [c]
    | d :: r => c :: d :: r

/-- Model of JavaScript `String.prototype.trim`. -/
def jsTrim (l : Line) : Line := trimRight (l.dropWhile jsWs)

/-- Model of JavaScript `String.prototype.endsWith` for a short suffix. -/
def endsWithL (l suf : Line) : Bool := suf.reverse.isPrefixOf l.reverse

/-- Model of JavaScript `String.prototype.startsWith`. -/
def startsWithL (l pre : Line) : Bool := pre.isPrefixOf l

/-- Model of JavaScript `String.prototype.split` with a one-character
separator (`text.split('\n')`, cell `.split('|')`). -/
def jsSplit (sep : Char) : Line → List Line
  | [] => [[]]
  | c :: r =>
    if c = sep then [] :: jsSplit sep r
    else
      match jsSplit sep r with
      | [] => [[c]]
      | x :: xs => (c :: x) :: xs

/-- Digits-to-number, the behaviour of `parseInt` on a nonempty digit run. -/
def parseIntNat (ds : Line) : Nat :=
  ds.foldl (fun a c => a * 10 + (c.toNat - '0'.toNat)) 0

/-- Opening brace character, `{`. -/
def obrace : Char := '\x7b'

/-- Closing brace character, `}`. -/
def cbrace : Char := '\x7d'

/-- The intermediate rich-text open-bold tag. -/
def tagBo : Line := [obrace, 'b', cbrace]

/-- The intermediate rich-text close-bold tag. -/
def tagBc : Line := [obrace, '/', 'b', cbrace]

/-- The intermediate rich-text open-italic tag. -/
def tagIo : Line := [obrace, 'i', cbrace]

/-- The intermediate rich-text close-italic tag. -/
def tagIc : Line := [obrace, '/', 'i', cbrace]

/-- Model of `text.replace(/\*\*([^*]+)\*\*/g, '{b}$1{/b}')`: a left-to-right
scan; at a `**` the regex matches a maximal nonempty run of non-asterisk
characters followed by `**`; on failure the scan advances one character.
Fuelled so that the definition is structurally recursive and evaluates in
the kernel; every recursive call shortens the list, so `length + 1` fuel
always suffices and the fuel-zero case is never reached. -/
def convertBoldF : Nat → Line → Line
  | 0, l => l
  | fuel + 1, l =>
    match l with
    | [] => []
    | c :: r =>
      if c = '*' then
        match r with
        | c2 :: r2 =>
          if c2 = '*' then
            let inner := r2.takeWhile (· != '*')
            if inner ≠ [] ∧ startsWithL (r2.drop inner.length) ['*', '*'] then
              tagBo ++ inner ++ tagBc ++
                convertBoldF fuel (r2.drop (inner.length + 2))
            else
              '*' :: convertBoldF fuel (c2 :: r2)
          else c :: convertBoldF fuel r
        | [] => c :: convertBoldF fuel r
      else c :: convertBoldF fuel r

/-- `convertBold` from the source. -/
def convertBold (text : Line) : Line := convertBoldF (text.length + 1) text

/-- Model of the italic pass `.replace(/\*{1}([^*]+)\*{1}/g, '{i}$1{/i}')`,
fuelled the same way as `convertBoldF`. -/
def italicPassF : Nat → Line → Line
  | 0, l => l
  | fuel + 1, l =>
    match l with
    | [] => []
    | c :: r =>
      if c = '*' then
        let inner := r.takeWhile (· != '*')
        if inner ≠ [] ∧ startsWithL (r.drop inner.length) ['*'] then
          tagIo ++ inner ++ tagIc ++ italicPassF fuel (r.drop (inner.length + 1))
        else
          '*' :: italicPassF fuel r
      else c :: italicPassF fuel r

/-- The italic pass at its sufficient fuel. -/
def italicPass (text : Line) : Line := italicPassF (text.length + 1) text

/-- `convertItalic` from the source: the bold pass followed by the italic
pass. -/
def convertItalic (text : Line) : Line := italicPass (convertBold text)

/-- Count of non-overlapping `**` occurrences, `content.match(/\*\*/g)`. -/
def countBoldMarkers : Line → Nat
  | [] => 0
  | '*' :: '*' :: r => countBoldMarkers r + 1
  | _ :: r => countBoldMarkers r

/-- Removal of non-overlapping `**` occurrences, `content.replace(/\*\*/g, '')`. -/
def removeBoldMarkers : Line → Line
  | [] => []
  | '*' :: '*' :: r => removeBoldMarkers r
  | c :: r => c :: removeBoldMarkers r

/-- One decoded rich-text segment (`TextSegment` from `TextObstacle.ts`). -/
structure TextSegment where
  text : Line
  bold : Bool
  italic : Bool
deriving DecidableEq, Repr

/-- Model of `String.prototype.indexOf` for a sub-sequence: index of the first
occurrence. -/
def findSub (pat : Line) : Line → Option Nat
  | [] => if pat.isPrefixOf ([] : Line) then some 0 else none
  | l@(_ :: r) =>
    if pat.isPrefixOf l then some 0 else (findSub pat r).map (· + 1)

/-- Model of `parseRichText` from `TextObstacle.ts`: scan for the earliest of
the two opening tags, emit preceding text plain, find the matching closing tag
of the same kind, recursively decode nested content OR-ing the outer style,
and treat a tag with no closing tag as plain text to the end.  Fuelled like
`convertBoldF`: every recursive call is on a strictly shorter list. -/
def parseRichTextF : Nat → Line → List TextSegment
  | 0, _ => []
  | fuel + 1, remaining =>
    if remaining = [] then []
    else
      let next : Option (Bool × Nat) :=
        match findSub tagBo remaining, findSub tagIo remaining with
        | some b, some i => if b < i then some (true, b) else some (false, i)
        | some b, none => some (true, b)
        | none, some i => some (false, i)
        | none, none => none
      match next with
      | none => [⟨remaining, false, false⟩]
      | some (isB, idx) =>
        let pre : List TextSegment :=
          if 0 < idx then [⟨remaining.take idx, false, false⟩] else []
        let endTag := if isB then tagBc else tagIc
        match findSub endTag (remaining.drop idx) with
        | none => pre ++ [⟨remaining.drop idx, false, false⟩]
        | some rel =>
          let tagEnd := idx + rel
          let styledText := (remaining.drop (idx + 3)).take (tagEnd - (idx + 3))
          let segs : List TextSegment :=
            if styledText ≠ [] then
              if (findSub tagBo styledText).isSome || (findSub tagIo styledText).isSome then
                (parseRichTextF fuel styledText).map
                  (fun s => ⟨s.text, isB || s.bold, !isB || s.italic⟩)
              else
                [⟨styledText, isB, !isB⟩]
            else []
          pre ++ segs ++ parseRichTextF fuel (remaining.drop (tagEnd + 4))

/-- `parseRichText` at its sufficient fuel. -/
def parseRichText (remaining : Line) : List TextSegment :=
  parseRichTextF (remaining.length + 1) remaining

/-! ## Parser data model (`MarkdownParser.ts` interfaces) -/

/-- The `type` tag of a `SlideElement`. -/
inductive ElemKind where
  | heading
  | bullet
  | numbered
  | paragraph
  | code
  | table
deriving DecidableEq, Repr

/-- Parsed table data: header row plus data rows. -/
structure TableData where
  headers : List Line
  rows : List (List Line)
deriving DecidableEq, Repr

/-- A parsed slide element (`SlideElement`). -/
structure SlideElement where
  type : ElemKind
  content : Line
  level : Option Nat := none
  number : Option Nat := none
  tableData : Option TableData := none
deriving DecidableEq, Repr

/-- A crystal image spec (`SlideImage`). -/
structure SlideImage where
  key : Line
  filename : Line
  x : Option Nat := none
  y : Option Nat := none
  crystalX : Option Nat := none
  crystalY : Option Nat := none
  width : Option Nat := none
  height : Option Nat := none
deriving DecidableEq, Repr

/-- A static image spec (`StaticImage`, `type: 'static'`). -/
structure StaticImage where
  filename : Line
  x : Option Nat := none
  y : Option Nat := none
  width : Option Nat := none
  height : Option Nat := none
deriving DecidableEq, Repr

/-- A parsed slide. -/
structure Slide where
  elements : List SlideElement
  images : List SlideImage
  staticImages : List StaticImage
deriving DecidableEq, Repr

/-! ## Line matchers, modelling the parser's regular expressions -/

/-- Drop a literal prefix, or fail: the anchored-literal part of a regex. -/
def dropPrefixQ (pre l : Line) : Option Line :=
  if pre.isPrefixOf l then some (l.drop pre.length) else none

/-- Model of `\s+(.+)$` applied after an anchored prefix: one-or-more
whitespace (greedy, backtracking so that `(.+)` keeps at least one
character), then the nonempty rest. -/
def wsPlusRest (s : Line) : Option Line :=
  match s with
  | [] => none
  | c :: _ =>
    if jsWs c then
      let r := s.dropWhile jsWs
      if r ≠ [] then some r
      else if 2 ≤ s.length then (s.getLast?).map (fun d => [d])
      else none
    else none

/-- Model of `^(#{1,3})\s+(.+)$`: heading level and raw content. -/
def headingMatch (l : Line) : Option (Nat × Line) :=
  let hs := l.takeWhile (· == '#')
  if 1 ≤ hs.length ∧ hs.length ≤ 3 then
    (wsPlusRest (l.drop hs.length)).map (fun c => (hs.length, c))
  else none

/-- Model of `^(#{1,3})\s+` (the continuation-stop test for headings). -/
def headingStop (l : Line) : Bool :=
  let hs := l.takeWhile (· == '#')
  1 ≤ hs.length && hs.length ≤ 3 &&
    (match l.drop hs.length with
     | c :: _ => jsWs c
     | [] => false)

/-- Model of `^(\s*)[-*]\s+(.+)$`: indent level and raw content. -/
def bulletMatch (l : Line) : Option (Nat × Line) :=
  let w := l.takeWhile jsWs
  match l.drop w.length with
  | c :: rest =>
    if c == '-' || c == '*' then
      (wsPlusRest rest).map (fun content => (w.length / 2, content))
    else none
  | [] => none

/-- Model of `^\s*[-*]\s+` (the continuation-stop test for bullets). -/
def bulletStop (l : Line) : Bool :=
  match l.drop (l.takeWhile jsWs).length with
  | c :: rest =>
    (c == '-' || c == '*') &&
      (match rest with
       | d :: _ => jsWs d
       | [] => false)
  | [] => false

/-- Model of `^(\s*)(\d+)\.\s+(.+)$`: indent, written number, raw content. -/
def numberedMatch (l : Line) : Option (Nat × Nat × Line) :=
  let w := l.takeWhile jsWs
  let r := l.drop w.length
  let ds := r.takeWhile (·.isDigit)
  if ds ≠ [] then
    match r.drop ds.length with
    | '.' :: rest => (wsPlusRest rest).map (fun c => (w.length / 2, parseIntNat ds, c))
    | _ => none
  else none

/-- Model of `^\s*\d+\.\s+` (the continuation-stop test for numbered items). -/
def numberedStop (l : Line) : Bool :=
  let r := l.drop (l.takeWhile jsWs).length
  let ds := r.takeWhile (·.isDigit)
  (ds ≠ [] : Bool) &&
    (match r.drop ds.length with
     | '.' :: d :: _ => jsWs d
     | _ => false)

/-- The three-backtick code-fence prefix. -/
def fence3 : Line := ['\x60', '\x60', '\x60']

/-- The literal `[crystal]` marker searched by `line.includes('[crystal]')`. -/
def crystalLit : Line := "[crystal]".toList

/-- Model of `^\|(.+)\|$`: the text between the enclosing pipes. -/
def rawTableContent (l : Line) : Option Line :=
  match l with
  | '|' :: rest =>
    if 2 ≤ rest.length ∧ rest.getLast? = some '|' then some rest.dropLast else none
  | _ => none

/-- Model of the separator-row pattern `^\|[-:|\s]+\|$`. -/
def sepLine (l : Line) : Bool :=
  match l with
  | '|' :: rest =>
    2 ≤ rest.length && rest.getLast? == some '|' &&
      rest.dropLast.all (fun c => c == '-' || c == ':' || c == '|' || jsWs c)
  | _ => false

/-- Model of `\s*[=:]\s*(\d+)` (the value part of an attribute pattern). -/
def numTail (r : Line) : Option Nat :=
  match r.dropWhile jsWs with
  | c :: r2 =>
    if c == '=' || c == ':' then
      let ds := (r2.dropWhile jsWs).takeWhile (·.isDigit)
      if ds ≠ [] then some (parseIntNat ds) else none
    else none
  | [] => none

/-- Try an attribute pattern `key(opt)?\s*[=:]\s*(\d+)` at one position,
preferring the greedy optional part. -/
def matchAttrAt (key opt l : Line) : Option Nat :=
  match dropPrefixQ key l with
  | none => none
  | some r =>
    match dropPrefixQ opt r with
    | some r2 =>
      match numTail r2 with
      | some n => some n
      | none => numTail r
    | none => numTail r

/-- Unanchored regex search for an attribute pattern: first matching
position, scanning left to right. -/
def searchAttr (key opt : Line) : Line → Option Nat
  | [] => none
  | l@(_ :: rest) =>
    match matchAttrAt key opt l with
    | some n => some n
    | none => searchAttr key opt rest

/-- Model of `^!\[crystal\]\(([^)]+)\)(?:\{([^}]+)\})?$` on the trimmed
line: source text and attribute text (empty when absent). -/
def crystalImageMatch (t : Line) : Option (Line × Line) :=
  match dropPrefixQ ("![crystal](".toList) t with
  | none => none
  | some r1 =>
    let src := r1.takeWhile (· != ')')
    if src = [] then none
    else
      match r1.drop src.length with
      | ')' :: r2 =>
        match r2 with
        | [] => some (src, [])
        | b :: r3 =>
          if b = obrace then
            let attrs := r3.takeWhile (· != cbrace)
            if attrs ≠ [] ∧ r3.drop attrs.length = [cbrace] then some (src, attrs)
            else none
          else none
      | _ => none

/-- Model of `^!\[([^\]]*)\]\(([^)]+)\)(?:\{([^}]+)\})?$` on the trimmed
line: alt text, source text and attribute text. -/
def staticImageMatch (t : Line) : Option (Line × Line × Line) :=
  match dropPrefixQ ("![".toList) t with
  | none => none
  | some r1 =>
    let alt := r1.takeWhile (· != ']')
    match r1.drop alt.length with
    | ']' :: '(' :: r2 =>
      let src := r2.takeWhile (· != ')')
      if src = [] then none
      else
        match r2.drop src.length with
        | ')' :: r3 =>
          match r3 with
          | [] => some (alt, src, [])
          | b :: r4 =>
            if b = obrace then
              let attrs := r4.takeWhile (· != cbrace)
              if attrs ≠ [] ∧ r4.drop attrs.length = [cbrace] then some (alt, src, attrs)
              else none
            else none
        | _ => none
    | _ => none

/-- Build the crystal `SlideImage` from matched source and attribute text. -/
def mkSlideImage (src attrs : Line) : SlideImage :=
  let filename := jsTrim src
  { key := filename
    filename := filename
    x := searchAttr ['x'] [] attrs
    y := searchAttr ['y'] [] attrs
    crystalX := searchAttr ['c', 'x'] [] attrs
    crystalY := searchAttr ['c', 'y'] [] attrs
    width := searchAttr ['w'] ("idth".toList) attrs
    height := searchAttr ['h'] ("eight".toList) attrs }

/-- Build the `StaticImage` from matched source and attribute text. -/
def mkStaticImage (src attrs : Line) : StaticImage :=
  { filename := jsTrim src
    x := searchAttr ['x'] [] attrs
    y := searchAttr ['y'] [] attrs
    width := searchAttr ['w'] ("idth".toList) attrs
    height := searchAttr ['h'] ("eight".toList) attrs }

/-! ## The slide parser (`MarkdownParser.parseSlide` / `parse`)

The source's `for` loop over `lines` with index `i` is modelled by
`MarkdownParser.parseLoop`, fuelled; `none` models fuel exhaustion (the proof
`parseSlide_always_some` shows the chosen fuel always suffices) and the inner
helper loops are fuelled the same way. -/

namespace MarkdownParser

/-- Continuation-stop test used in the heading branch (heading, bullet,
crystal, image, fence or blank next line; numbered items are not in this
list in the source). -/
def stopperH (l : Line) : Bool :=
  headingStop l || bulletStop l || startsWithL l ("![crystal]".toList) ||
    startsWithL l ("![".toList) || startsWithL l fence3 || (jsTrim l == [])

/-- Continuation-stop test used in the bullet, numbered and paragraph
branches (additionally stops at numbered items). -/
def stopperB (l : Line) : Bool :=
  headingStop l || bulletStop l || numberedStop l ||
    startsWithL l ("![crystal]".toList) || startsWithL l ("![".toList) ||
    startsWithL l fence3 || (jsTrim l == [])

/-- The explicit-marker continuation loop shared by the heading, bullet and
numbered branches: while the content ends in a backslash or two spaces,
strip the marker, stop if the next line starts a new element or is blank,
otherwise consume it.  Returns the final content and the final index. -/
def contLoop (stopN : Bool) (lines : List Line) : Nat → Line → Nat → Option (Line × Nat)
  | 0, _, _ => none
  | fuel + 1, content, i =>
    if i + 1 < lines.length then
      let ewB := endsWithL content ['\\']
      let ewS := endsWithL content [' ', ' ']
      if ewB || ewS then
        let c2 := if ewB then content.dropLast else content.dropLast.dropLast
        match lines[i + 1]? with
        | none => none
        | some next =>
          if (if stopN then stopperB next else stopperH next) then some (c2, i)
          else contLoop stopN lines fuel (c2 ++ ['\n'] ++ jsTrim next) (i + 1)
      else some (content, i)
    else some (content, i)

/-- The paragraph continuation loop: additionally continues on an odd count
of `**` markers or an odd count of leftover `*` markers, stripping only the
explicit markers. -/
def paraLoop (lines : List Line) : Nat → Line → Nat → Option (Line × Nat)
  | 0, _, _ => none
  | fuel + 1, content, i =>
    if i + 1 < lines.length then
      let ewB := endsWithL content ['\\']
      let ewS := endsWithL content [' ', ' ']
      let unclosedBold := countBoldMarkers content % 2 == 1
      let unclosedItalic := (removeBoldMarkers content).count '*' % 2 == 1
      if ewB || ewS || unclosedBold || unclosedItalic then
        let c2 :=
          if ewB then content.dropLast
          else if ewS then content.dropLast.dropLast
          else content
        match lines[i + 1]? with
        | none => none
        | some next =>
          if stopperB next then some (c2, i)
          else paraLoop lines fuel (c2 ++ ['\n'] ++ jsTrim next) (i + 1)
      else some (content, i)
    else some (content, i)

/-- The table data-row loop: consume lines whose trimmed text matches
`^\|(.+)\|$`, producing the trimmed pipe-split cells with the enclosing
pipes stripped; stops at the first non-matching line.  Returns the rows and
the index of the first line not consumed. -/
def tableRows (lines : List Line) : Nat → Nat → Option (List (List Line) × Nat)
  | 0, _ => none
  | fuel + 1, i =>
    if i < lines.length then
      match lines[i]? with
      | none => none
      | some l =>
        match rawTableContent (jsTrim l) with
        | some c =>
          match tableRows lines fuel (i + 1) with
          | some (rows, j) => some (((jsSplit '|' c).map jsTrim) :: rows, j)
          | none => none
        | none => some ([], i)
    else some ([], i)

/-- One pass of the source's `for (let i = 0; ...)` loop in `parseSlide`,
carrying the loop state (`i`, `inCodeBlock`, `codeContent` and the three
accumulators). -/
def parseLoop (lines : List Line) :
    Nat → Nat → Bool → List Line → List SlideElement → List SlideImage →
    List StaticImage → Option Slide
  | 0, _, _, _, _, _, _ => none
  | fuel + 1, i, inCode, codeAcc, els, imgs, stats =>
    if i < lines.length then
      match lines[i]? with
      | none => none
      | some line =>
        if startsWithL line fence3 then
          if inCode then
            parseLoop lines fuel (i + 1) false []
              (els ++ [{ type := .code, content := List.intercalate ['\n'] codeAcc }])
              imgs stats
          else parseLoop lines fuel (i + 1) true codeAcc els imgs stats
        else if inCode then
          parseLoop lines fuel (i + 1) true (codeAcc ++ [line]) els imgs stats
        else if jsTrim line == [] then
          parseLoop lines fuel (i + 1) false codeAcc els imgs stats
        else
          match crystalImageMatch (jsTrim line) with
          | some (src, attrs) =>
            parseLoop lines fuel (i + 1) false codeAcc els
              (imgs ++ [mkSlideImage src attrs]) stats
          | none =>
            match staticImageMatch (jsTrim line), findSub crystalLit line with
            | some (_alt, src, attrs), none =>
              parseLoop lines fuel (i + 1) false codeAcc els imgs
                (stats ++ [mkStaticImage src attrs])
            | _, _ =>
              match headingMatch line with
              | some (lvl, c0) =>
                match contLoop false lines fuel c0 i with
                | some (c, i2) =>
                  parseLoop lines fuel (i2 + 1) false codeAcc
                    (els ++ [{ type := .heading, content := convertItalic c,
                               level := some lvl }])
                    imgs stats
                | none => none
              | none =>
                match bulletMatch line with
                | some (ind, c0) =>
                  match contLoop true lines fuel c0 i with
                  | some (c, i2) =>
                    parseLoop lines fuel (i2 + 1) false codeAcc
                      (els ++ [{ type := .bullet, content := convertItalic c,
                                 level := some ind }])
                      imgs stats
                  | none => none
                | none =>
                  match numberedMatch line with
                  | some (ind, num, c0) =>
                    match contLoop true lines fuel c0 i with
                    | some (c, i2) =>
                      parseLoop lines fuel (i2 + 1) false codeAcc
                        (els ++ [{ type := .numbered, content := convertItalic c,
                                   level := some ind, number := some num }])
                        imgs stats
                    | none => none
                  | none =>
                    match rawTableContent line with
                    | some c =>
                      let headers :=
                        ((jsSplit '|' c).map jsTrim).filter (fun h => h ≠ [])
                      let i1 := i + 1
                      let i2 :=
                        match lines[i1]? with
                        | some l2 => if sepLine l2 then i1 + 1 else i1
                        | none => i1
                      match tableRows lines fuel i2 with
                      | some (rows, i3) =>
                        parseLoop lines fuel i3 false codeAcc
                          (els ++ [{ type := .table, content := [],
                                     tableData := some
                                       { headers := headers.map convertItalic
                                         rows := rows.map
                                           (fun r => r.map convertItalic) } }])
                          imgs stats
                      | none => none
                    | none =>
                      match paraLoop lines fuel (jsTrim line) i with
                      | some (c, i2) =>
                        parseLoop lines fuel (i2 + 1) false codeAcc
                          (els ++ [{ type := .paragraph,
                                     content := convertItalic c }])
                          imgs stats
                      | none => none
    else some { elements := els, images := imgs, staticImages := stats }

/-- `parseSlide` applied to an already-split list of lines. -/
def parseSlideLines (lines : List Line) : Option Slide :=
  parseLoop lines (lines.length + 1) 0 false [] [] [] []

/-- `MarkdownParser.parseSlide`: split the chunk on newlines and run the
line loop. -/
def parseSlide (text : Line) : Option Slide :=
  parseSlideLines (jsSplit '\n' text)

/-- `slideTexts.map(text => this.parseSlide(text))`, propagating a thrown
exception. -/
def parseAll : List Line → Option (List Slide)
  | [] => some []
  | t :: ts =>
    match parseSlide t with
    | some s => (parseAll ts).map (s :: ·)
    | none => none

/-- The slide-separator line `---`. -/
def dashLine : Line := ['-', '-', '-']

/-- `MarkdownParser.parse`: split on `---` lines, trim each chunk, drop
empty chunks, parse each chunk into a slide. -/
def parse (markdown : Line) : Option (List Slide) :=
  let slideTexts :=
    ((jsSplit '\n' markdown).splitOn dashLine).map
      (fun c => jsTrim (List.intercalate ['\n'] c))
  parseAll (slideTexts.filter (fun s => s ≠ []))

end MarkdownParser

/-! ## The layout engine (`AutoLayout.ts`)

Numbers are modelled as rationals.  `layout` returns `none` exactly when the
source would throw: with an empty element list,
`slide.elements[slide.elements.length - 1]` is `undefined` and
`getElementSpacing` dereferences `element.type`. -/

/-- A positioned, styled layout element. -/
structure LayoutElement where
  x : ℚ
  y : ℚ
  content : Line
  fontSize : String
  color : String
  fontFamily : String
  fontStyle : Option String := none
  align : Option String := none
  type : Option String := none
deriving DecidableEq, Repr

/-- Layout configuration (canvas size and padding). -/
structure LayoutConfig where
  width : ℚ
  height : ℚ
  padding : ℚ
deriving DecidableEq, Repr

/-- The default layout configuration (1280 x 720, 80px padding). -/
def defaultLayoutConfig : LayoutConfig := { width := 1280, height := 720, padding := 80 }

/-- Theme text colors from `theme.config.ts`. -/
def themeHeadingColor : String := "#00ffff"

/-- Theme body color. -/
def themeBodyColor : String := "#aaccff"

/-- Theme accent color. -/
def themeAccentColor : String := "#ffffff"

/-- JS `a || b` for an optional number field: `undefined` and `0` are falsy. -/
def jsOrNat (o : Option Nat) (d : Nat) : Nat :=
  match o with
  | some n => if n = 0 then d else n
  | none => d

namespace AutoLayout

/-- `getHeadingSize`. -/
def getHeadingSize (level : Nat) : String :=
  match level with
  | 1 => "56px"
  | 2 => "40px"
  | 3 => "32px"
  | _ => "28px"

/-- `layoutElement`: position and style one element at a given `y`. -/
def layoutElement (cfg : LayoutConfig) (element : SlideElement) (y : ℚ) : LayoutElement :=
  let leftX := cfg.padding
  match element.type with
  | .heading =>
    { x := leftX, y := y, content := element.content
      fontSize := getHeadingSize (jsOrNat element.level 1)
      color := if element.level = some 1 then themeHeadingColor else themeAccentColor
      fontFamily :=
        if element.level = some 1 ∨ element.level = some 2 ∨ element.level = some 3 then
          "Orbitron"
        else "monospace"
      fontStyle :=
        if element.level = some 2 ∨ element.level = some 3 then some "bold"
        else some "normal" }
  | .bullet =>
    { x := leftX + (jsOrNat element.level 0) * 30, y := y
      content := ['•', ' '] ++ element.content
      fontSize := "24px", color := themeBodyColor, fontFamily := "Revalia"
      align := some "left" }
  | .numbered =>
    { x := leftX + (jsOrNat element.level 0) * 30, y := y
      content := (toString (jsOrNat element.number 1)).toList ++ ['.', ' '] ++ element.content
      fontSize := "24px", color := themeBodyColor, fontFamily := "Revalia"
      align := some "left" }
  | .code =>
    { x := leftX, y := y, content := element.content
      fontSize := "20px", color := "#88ff88", fontFamily := "monospace"
      align := some "left" }
  | .table =>
    { x := leftX, y := y, content := []
      fontSize := "20px", color := themeBodyColor, fontFamily := "Revalia"
      type := some "table" }
  | .paragraph =>
    { x := leftX, y := y, content := element.content
      fontSize := "24px", color := themeBodyColor, fontFamily := "Revalia"
      align := some "left" }

/-- `getElementHeight`. -/
def getElementHeight (element : SlideElement) : ℚ :=
  match element.type with
  | .heading =>
    let lineCount := (jsSplit '\n' element.content).length
    let lineHeight : ℚ :=
      if element.level = some 1 then 70 else if element.level = some 2 then 50 else 40
    lineHeight * lineCount
  | .bullet => 35 * ((jsSplit '\n' element.content).length : ℚ)
  | .numbered => 35 * ((jsSplit '\n' element.content).length : ℚ)
  | .table =>
    let rowCount := (element.tableData.map (fun td => td.rows.length)).getD 0
    40 + (rowCount : ℚ) * 40
  | .code => ((jsSplit '\n' element.content).length : ℚ) * 24 + 20
  | .paragraph => 35

/-- `getElementSpacing`. -/
def getElementSpacing (element : SlideElement) : ℚ :=
  match element.type with
  | .heading => if element.level = some 1 then 40 else 25
  | .bullet => 15
  | .numbered => 15
  | .code => 30
  | .table => 20
  | .paragraph => 20

/-- `layout`: one pass assigning positions, then vertical centering when the
content is short.  `none` models the exception thrown on an empty element
list (the trailing-spacing computation dereferences `undefined`). -/
def layout (cfg : LayoutConfig) (slide : Slide) : Option (List LayoutElement) :=
  let step :=
    slide.elements.foldl
      (fun (acc : List LayoutElement × ℚ) element =>
        (acc.1 ++ [layoutElement cfg element acc.2],
         acc.2 + getElementHeight element + getElementSpacing element))
      ([], cfg.padding)
  match slide.elements.getLast? with
  | none => none
  | some last =>
    let totalHeight := step.2 - getElementSpacing last
    if totalHeight < cfg.height - cfg.padding * 2 then
      let offset := (cfg.height - totalHeight) / 2 - cfg.padding
      some (step.1.map (fun el => { el with y := el.y + offset }))
    else some step.1

end AutoLayout

/-! ## Table column sizing (`Table.calculateColumnWidths`)

Text measurement (`calculateTextWidth`, backed by the renderer) is abstracted
as a function parameter `measure text isHeader`. -/

namespace Table

/-- The usable slide content width, `1280 - 160`. -/
def SLIDE_WIDTH : ℚ := 1280 - 160

/-- The minimum column width. -/
def MIN_COL_WIDTH : ℚ := 60

/-- The maximum column width. -/
def MAX_COL_WIDTH : ℚ := 500

/-- Horizontal cell padding (applied on both sides). -/
def PADDING_X : ℚ := 15

/-- The first loop of `calculateColumnWidths`: per-column maximum measured
width over the header and all data cells, plus padding, clamped to the
minimum and maximum column widths. -/
def naturalColWidths (measure : Line → Bool → ℚ) (tableData : TableData) : List ℚ :=
  (List.range tableData.headers.length).map (fun colIndex =>
    let headerWidth := measure (tableData.headers.getD colIndex []) true
    let maxWidth :=
      tableData.rows.foldl
        (fun m row => max m (measure (row.getD colIndex []) false))
        (max 0 headerWidth)
    let o1 := maxWidth + PADDING_X * 2
    let o2 := max o1 MIN_COL_WIDTH
    min o2 MAX_COL_WIDTH)

/-- `calculateColumnWidths`: clamp the natural widths, then scale down
(flooring each column at the minimum) or up proportionally to the usable
slide width. -/
def calculateColumnWidths (measure : Line → Bool → ℚ) (tableData : TableData) : List ℚ :=
  let colWidths := naturalColWidths measure tableData
  let totalOptimalWidth := colWidths.sum
  if SLIDE_WIDTH < totalOptimalWidth then
    colWidths.map (fun w => max (w * (SLIDE_WIDTH / totalOptimalWidth)) MIN_COL_WIDTH)
  else if totalOptimalWidth < SLIDE_WIDTH then
    colWidths.map (fun w => w * (SLIDE_WIDTH / totalOptimalWidth))
  else colWidths

end Table

/-! ## The slide lifecycle manager (`SlideManager.ts`)

The manager's state and its operations are modelled as a step function over
an explicit state.  A transition is modelled in two phases exactly as the
source sequences it: the request (guard check, then lock + camera tween
start) and the completion (the tween `onComplete`: index update, object
swap, unlock, user callback).  Both the edge-triggered `transition` and
`transitionWithKeyboard` perform the identical lock → swap → unlock →
callback sequence on this state, so one `complete` operation models both.
`gens` counts live-object generations created (calls of
`createCurrentSlide`), and `completions` counts invoked completion
callbacks; `none` models a thrown exception. -/

/-- The live objects for the active slide (`SlideObjects`). -/
structure SlideObjects where
  textObstacles : List LayoutElement
  crystals : List (ℚ × ℚ × SlideImage)
  staticImages : List (ℚ × ℚ × StaticImage)
  tables : List (ℚ × ℚ × TableData)
deriving DecidableEq, Repr

namespace SlideManager

/-- The manager state. -/
structure SMState where
  slides : List Slide
  currentSlideIndex : ℤ
  isTransitioning : Bool
  pending : Option ℤ
  gens : Nat
  completions : Nat
deriving DecidableEq, Repr

/-- The initial state: no document, index 0, idle. -/
def initial : SMState :=
  { slides := [], currentSlideIndex := 0, isTransitioning := false,
    pending := none, gens := 0, completions := 0 }

/-- `canGoNext`. -/
def canGoNext (s : SMState) : Bool :=
  decide (s.currentSlideIndex < (s.slides.length : ℤ) - 1)

/-- `canGoPrev`. -/
def canGoPrev (s : SMState) : Bool :=
  decide (0 < s.currentSlideIndex)

/-- Default slot positions for crystal images. -/
def crystalDefaults : List (ℚ × ℚ) :=
  [(200, 200), (1080, 200), (200, 520), (1080, 520), (640, 360)]

/-- Default slot positions for static images. -/
def staticDefaults : List (ℚ × ℚ) :=
  [(640, 360), (200, 360), (1080, 360)]

/-- Position one crystal image: explicit coordinates, else the default slot
indexed modulo the slot count. -/
def placeCrystal (index : Nat) (image : SlideImage) : ℚ × ℚ × SlideImage :=
  let d := crystalDefaults.getD (index % crystalDefaults.length) (0, 0)
  ((image.x.map (fun n => (n : ℚ))).getD d.1,
   (image.y.map (fun n => (n : ℚ))).getD d.2, image)

/-- Position one static image. -/
def placeStatic (index : Nat) (image : StaticImage) : ℚ × ℚ × StaticImage :=
  let d := staticDefaults.getD (index % staticDefaults.length) (0, 0)
  ((image.x.map (fun n => (n : ℚ))).getD d.1,
   (image.y.map (fun n => (n : ℚ))).getD d.2, image)

/-- `createCurrentSlide`: destroy the previous generation, lay out
`slides[currentSlideIndex]` and spawn one object per layout element / image
spec.  `none` models the exception thrown when `slides[currentSlideIndex]`
is `undefined` (the layout engine dereferences it). -/
def createCurrentSlide (s : SMState) : Option (SMState × SlideObjects) :=
  if s.slides.length = 0 then
    some ({ s with gens := s.gens + 1 }, ⟨[], [], [], []⟩)
  else
    match (if 0 ≤ s.currentSlideIndex then s.slides[s.currentSlideIndex.toNat]? else none) with
    | none => none
    | some slide =>
      match AutoLayout.layout defaultLayoutConfig slide with
      | none => none
      | some layoutEls =>
        let paired := layoutEls.zip slide.elements
        let objs : SlideObjects :=
          { textObstacles :=
              (paired.filter
                (fun p => !(p.2.type = ElemKind.table ∧ p.2.tableData.isSome : Bool))).map
                (fun p => p.1)
            crystals := (slide.images.enum).map (fun p => placeCrystal p.1 p.2)
            staticImages := (slide.staticImages.enum).map (fun p => placeStatic p.1 p.2)
            tables :=
              (paired.filterMap
                (fun p =>
                  match p.2.tableData with
                  | some td =>
                    if p.2.type = ElemKind.table then some (p.1.x, p.1.y, td) else none
                  | none => none)) }
        some ({ s with gens := s.gens + 1 }, objs)

/-- The manager operations (with `reloadCurrent` also standing for
`reloadCurrentSlide`, which clears and recreates the current slide). -/
inductive SMOp where
  | loadMarkdown (md : Line)
  | createCurrent
  | reloadCurrent
  | requestNext
  | requestPrev
  | complete
deriving DecidableEq, Repr

/-- Whether an operation is a `loadMarkdown`. -/
def SMOp.isLoad : SMOp → Bool
  | .loadMarkdown _ => true
  | _ => false

/-- The step function: one operation applied to a state, `none` modelling a
thrown exception. -/
def step (s : SMState) : SMOp → Option SMState
  | .loadMarkdown md => (MarkdownParser.parse md).map (fun d => { s with slides := d })
  | .createCurrent => (createCurrentSlide s).map (·.1)
  | .reloadCurrent => (createCurrentSlide s).map (·.1)
  | .requestNext =>
    if !canGoNext s || s.isTransitioning then some s
    else some { s with isTransitioning := true, pending := some 1 }
  | .requestPrev =>
    if !canGoPrev s || s.isTransitioning then some s
    else some { s with isTransitioning := true, pending := some (-1) }
  | .complete =>
    match s.pending with
    | none => none
    | some d =>
      let s1 := { s with currentSlideIndex := s.currentSlideIndex + d }
      (createCurrentSlide s1).map
        (fun p =>
          { p.1 with isTransitioning := false, pending := none,
                     completions := s.completions + 1 })

/-- Run a sequence of operations, stopping at the first exception. -/
def runOps (s : SMState) : List SMOp → Option SMState
  | [] => some s
  | op :: ops =>
    match step s op with
    | some s2 => runOps s2 ops
    | none => none

end SlideManager

/-! ## Shared concrete inputs for the manager claims -/

/-- A five-slide document source. -/
def mdFive : Line := "A\n---\nB\n---\nC\n---\nD\n---\nE".toList

/-- A two-slide document source. -/
def mdTwo : Line := "A\n---\nB".toList

/-- Load the five-slide document, navigate to the last slide (index 4), then
load the two-slide document, exactly as the hot-reload path does
(`loadMarkdown` before `reloadCurrentSlide`). -/
def opsToStaleIndex : List SlideManager.SMOp :=
  [.loadMarkdown mdFive, .requestNext, .complete, .requestNext, .complete,
   .requestNext, .complete, .requestNext, .complete, .loadMarkdown mdTwo]

/-- The full reload sequence: the above followed by `reloadCurrentSlide`. -/
def opsReloadStale : List SlideManager.SMOp :=
  opsToStaleIndex ++ [.reloadCurrent]

/-! ## Claim theorems -/

set_option maxRecDepth 100000

/-- C1 (code bug): reloading a 2-slide document while `currentIndex = 4`
does not clamp the index.  After `loadMarkdown` the state has 2 slides and
index 4 (first conjunct); `reloadCurrentSlide` then indexes
`slides[4] = undefined`, the layout engine dereferences it, and the reload
throws instead of completing with `currentIndex = 1` (second conjunct:
the model returns `none`). -/
theorem c1_reload_does_not_clamp :
    (SlideManager.runOps SlideManager.initial opsToStaleIndex).map
        (fun s => (s.slides.length, s.currentSlideIndex, s.isTransitioning)) =
      some (2, 4, false) ∧
    SlideManager.runOps SlideManager.initial opsReloadStale = none := by
  with_unfolding_all decide

/-- The claimed navigation invariant: `0 <= currentIndex < slides.length`
whenever `slides.length > 0`. -/
def SMInv (s : SlideManager.SMState) : Prop :=
  0 < s.slides.length →
    0 ≤ s.currentSlideIndex ∧ s.currentSlideIndex < (s.slides.length : ℤ)

instance (s : SlideManager.SMState) : Decidable (SMInv s) := by
  unfold SMInv; infer_instance

/-- C2 counterexample: `loadMarkdown` does not preserve the invariant.  The
reachable state after loading a five-slide document, advancing to index 4
and loading a two-slide document has `slides.length = 2` and
`currentIndex = 4`, violating `0 <= currentIndex < slides.length`. -/
theorem c2_counterexample :
    (SlideManager.runOps SlideManager.initial opsToStaleIndex).map
        (fun s => (s.slides.length, s.currentSlideIndex, decide (SMInv s))) =
      some (2, 4, false) := by
  with_unfolding_all decide

/-- The source text of the C4 rich-text example. -/
def c4source : Line := "**bold *nested* end**".toList

/-- The segment list the claim predicts for the C4 example. -/
def c4claimedSegments : List TextSegment :=
  [⟨"bold ".toList, true, false⟩, ⟨"nested".toList, true, true⟩,
   ⟨" end".toList, true, false⟩]

/-- The segment list the code actually produces for the C4 example. -/
def c4actualSegments : List TextSegment :=
  [⟨"*".toList, false, false⟩, ⟨"bold ".toList, false, true⟩,
   ⟨"nested".toList, false, false⟩, ⟨" end".toList, false, true⟩,
   ⟨"*".toList, false, false⟩]

/-- C4 counterexample: encoding then decoding `"**bold *nested* end**"` does
not give the claimed three bold segments: the bold pass's pattern
`\*\*([^*]+)\*\*` cannot match content containing an asterisk, so the result
is five segments with no bold flag. -/
theorem c4_counterexample :
    parseRichText (convertItalic c4source) = c4actualSegments ∧
    parseRichText (convertItalic c4source) ≠ c4claimedSegments := by
  decide

/-- C4 amended: the example decodes to five segments — literal `*` (plain),
`bold ` (italic only), `nested` (plain), ` end` (italic only), literal `*`
(plain) — and `*unterminated` decodes to one plain segment equal to the
literal input. -/
theorem c4_amended_decode :
    parseRichText (convertItalic c4source) = c4actualSegments ∧
    parseRichText (convertItalic ("*unterminated".toList)) =
      [⟨"*unterminated".toList, false, false⟩] := by
  decide

/-- A slide chunk whose table has an interior empty header cell and an
interior empty data cell. -/
def c5chunk : Line := "|a||b|\n|---|---|\n|x||y|".toList

/-- C5 counterexample: for the header line `|a||b|` the parser produces
header cells `["a", "b"]` — the interior empty header cell is removed (the
filter drops every empty cell, not only those at the ends), contradicting
the claim that interior empty header cells are kept; interior empty data
cells are preserved. -/
theorem c5_counterexample :
    (MarkdownParser.parseSlide c5chunk).map
        (fun s => s.elements.map (fun e => e.tableData)) =
      some [some { headers := [['a'], ['b']], rows := [[['x'], [], ['y']]] }] ∧
    ([['a'], ['b']] : List Line) ≠ [['a'], [], ['b']] := by
  decide

/-- A measurement function making the first column's natural width minimal. -/
def c6measure : Line → Bool → ℚ := fun s _ => if s = ['a'] then 0 else 470

/-- A four-column header-only table. -/
def c6table : TableData := { headers := [['a'], ['b'], ['c'], ['d']], rows := [] }

/-- Helper: the clamped natural column widths of the C6 example. -/
theorem c6_natural_widths :
    Table.naturalColWidths c6measure c6table = [60, 500, 500, 500] := by
  simp [Table.naturalColWidths, c6measure, c6table, Table.PADDING_X, Table.MIN_COL_WIDTH,
        Table.MAX_COL_WIDTH, List.range_succ]
  norm_num

/-- C6 counterexample: the clamped natural widths are `[60, 500, 500, 500]`
(sum 1560, exceeding the usable width 1120, with minimum times count = 240
well under 1120), yet the computed widths sum to `14780/13`, about `1136.9`,
not 1120: scaling floors the first column at the 60 minimum, so the total
exceeds the usable width by far more than rounding. -/
theorem c6_counterexample :
    Table.naturalColWidths c6measure c6table = [60, 500, 500, 500] ∧
    (Table.naturalColWidths c6measure c6table).sum = 1560 ∧
    Table.SLIDE_WIDTH < 1560 ∧
    Table.MIN_COL_WIDTH * 4 ≤ Table.SLIDE_WIDTH ∧
    (Table.calculateColumnWidths c6measure c6table).sum = 14780 / 13 ∧
    ((14780 : ℚ) / 13) ≠ Table.SLIDE_WIDTH := by
  refine ⟨c6_natural_widths, ?_, by norm_num [Table.SLIDE_WIDTH],
          by norm_num [Table.SLIDE_WIDTH, Table.MIN_COL_WIDTH], ?_,
          by norm_num [Table.SLIDE_WIDTH]⟩
  · rw [c6_natural_widths]; norm_num
  · rw [Table.calculateColumnWidths, c6_natural_widths]
    norm_num [Table.SLIDE_WIDTH, Table.MIN_COL_WIDTH]

/-- C8: a transition request made while `isTransitioning`, or in a direction
not permitted by `canGoNext`/`canGoPrev`, is a silent no-op: the resulting
state is the very same state — `currentIndex`, the generation counter and
the completion counter are all unchanged, so no second live-object
generation is spawned and no second completion is invoked.  This covers all
four entry points, since the keyboard variants use the identical guard. -/
theorem c8_denied_request_noop (s : SlideManager.SMState) :
    (s.isTransitioning = true ∨ SlideManager.canGoNext s = false →
      SlideManager.step s .requestNext = some s) ∧
    (s.isTransitioning = true ∨ SlideManager.canGoPrev s = false →
      SlideManager.step s .requestPrev = some s) := by
  constructor
  · intro h
    rcases h with h | h <;> simp [SlideManager.step, h]
  · intro h
    rcases h with h | h <;> simp [SlideManager.step, h]

/-- C8 witness: at the initial state (a 0-slide document) `canGoNext` and
`canGoPrev` are both false, and both requests leave the state unchanged. -/
theorem c8_witness :
    SlideManager.step SlideManager.initial .requestNext = some SlideManager.initial ∧
    SlideManager.step SlideManager.initial .requestPrev = some SlideManager.initial :=
  ⟨(c8_denied_request_noop SlideManager.initial).1 (Or.inr (by decide)),
   (c8_denied_request_noop SlideManager.initial).2 (Or.inr (by decide))⟩

/-- The C9 slide chunk: a single crystal image line and nothing else. -/
def c9chunk : Line := "![crystal](a.png)".toList

/-- C9: the layout engine is not total.  On a slide with an empty element
list the trailing-spacing computation dereferences the undefined last
element and throws (modelled as `none`); with at least one element it
returns normally; and a slide with an empty element list is producible by
`parse` from a chunk containing only image lines. -/
theorem c9_layout_not_total :
    (∀ (cfg : LayoutConfig) (slide : Slide), slide.elements = [] →
      AutoLayout.layout cfg slide = none) ∧
    (∀ (cfg : LayoutConfig) (slide : Slide), slide.elements ≠ [] →
      (AutoLayout.layout cfg slide).isSome = true) ∧
    MarkdownParser.parse c9chunk =
      some [{ elements := [],
              images := [{ key := "a.png".toList, filename := "a.png".toList }],
              staticImages := [] }] := by
  refine ⟨?_, ?_, by decide⟩
  · intro cfg slide h
    simp [AutoLayout.layout, h]
  · intro cfg slide h
    rw [AutoLayout.layout]
    rcases hl : slide.elements.getLast? with _ | last
    · rw [List.getLast?_eq_none_iff] at hl
      exact absurd hl h
    · simp only []
      split <;> simp

/-- C9 witness: the empty-element slide makes `layout` throw, a one-element
slide does not, and the image-only chunk parses to an empty element list. -/
theorem c9_witness :
    AutoLayout.layout defaultLayoutConfig ⟨[], [], []⟩ = none ∧
    (AutoLayout.layout defaultLayoutConfig
        ⟨[{ type := .paragraph, content := ['A'] }], [], []⟩).isSome = true :=
  ⟨c9_layout_not_total.1 defaultLayoutConfig ⟨[], [], []⟩ rfl,
   c9_layout_not_total.2.1 defaultLayoutConfig
     ⟨[{ type := .paragraph, content := ['A'] }], [], []⟩ (by decide)⟩

/-- Sum of a list after multiplying each entry by a constant. -/
theorem sum_map_mul_const (l : List ℚ) (c : ℚ) :
    (l.map (fun w => w * c)).sum = l.sum * c := by
  induction l with
  | nil => simp
  | cons a t ih => simp [ih, add_mul]

/-- C6 amended: when the clamped natural widths sum to more than the usable
width, every column is scaled by the common factor usable/total and then
floored at the configured minimum — so no column ever drops below the
minimum (even when minimum times count exceeds the usable width), the sum
never falls below the usable width, and the sum equals the usable width
exactly precisely when no column needs the floor. -/
theorem c6_amended_scaling (measure : Line → Bool → ℚ) (td : TableData)
    (h : Table.SLIDE_WIDTH < (Table.naturalColWidths measure td).sum) :
    Table.calculateColumnWidths measure td =
      (Table.naturalColWidths measure td).map
        (fun w =>
          max (w * (Table.SLIDE_WIDTH / (Table.naturalColWidths measure td).sum))
            Table.MIN_COL_WIDTH) ∧
    (∀ w ∈ Table.calculateColumnWidths measure td, Table.MIN_COL_WIDTH ≤ w) ∧
    Table.SLIDE_WIDTH ≤ (Table.calculateColumnWidths measure td).sum ∧
    ((∀ w ∈ Table.naturalColWidths measure td,
        Table.MIN_COL_WIDTH ≤
          w * (Table.SLIDE_WIDTH / (Table.naturalColWidths measure td).sum)) →
      (Table.calculateColumnWidths measure td).sum = Table.SLIDE_WIDTH) := by
  have hS : (0 : ℚ) < (Table.naturalColWidths measure td).sum := by
    have : (0 : ℚ) < Table.SLIDE_WIDTH := by norm_num [Table.SLIDE_WIDTH]
    linarith
  have heq : Table.calculateColumnWidths measure td =
      (Table.naturalColWidths measure td).map
        (fun w =>
          max (w * (Table.SLIDE_WIDTH / (Table.naturalColWidths measure td).sum))
            Table.MIN_COL_WIDTH) := by
    rw [Table.calculateColumnWidths]
    simp only [if_pos h]
  have hsum : ((Table.naturalColWidths measure td).map
      (fun w =>
        w * (Table.SLIDE_WIDTH / (Table.naturalColWidths measure td).sum))).sum =
      Table.SLIDE_WIDTH := by
    rw [sum_map_mul_const, mul_comm, div_mul_cancel₀ _ (ne_of_gt hS)]
  refine ⟨heq, ?_, ?_, ?_⟩
  · intro w hw
    rw [heq] at hw
    rcases List.mem_map.mp hw with ⟨v, _, rfl⟩
    exact le_max_right _ _
  · rw [heq]
    exact le_trans (le_of_eq hsum.symm)
      (List.sum_le_sum (fun v _ => le_max_left _ _))
  · intro hfloor
    rw [heq]
    rw [List.map_congr_left (fun v hv => max_eq_left (hfloor v hv))]
    exact hsum

/-- A measurement function for the C6 witness (no column is floored). -/
def c6wMeasure : Line → Bool → ℚ := fun _ _ => 470

/-- A three-column header-only table for the C6 witness. -/
def c6wTable : TableData := { headers := [['a'], ['b'], ['c']], rows := [] }

/-- Helper: the natural widths of the C6 witness table. -/
theorem c6w_natural_widths :
    Table.naturalColWidths c6wMeasure c6wTable = [500, 500, 500] := by
  simp [Table.naturalColWidths, c6wMeasure, c6wTable, Table.PADDING_X,
        Table.MIN_COL_WIDTH, Table.MAX_COL_WIDTH, List.range_succ]
  norm_num

/-- C6 witness: for an over-wide table whose scaled widths all stay above the
minimum, the computed widths sum to exactly the usable width. -/
theorem c6_amended_witness :
    (Table.calculateColumnWidths c6wMeasure c6wTable).sum = Table.SLIDE_WIDTH :=
  (c6_amended_scaling c6wMeasure c6wTable
      (by rw [c6w_natural_widths]; norm_num [Table.SLIDE_WIDTH])).2.2.2
    (by
      rw [c6w_natural_widths]
      intro w hw
      fin_cases hw <;> norm_num [Table.SLIDE_WIDTH, Table.MIN_COL_WIDTH])

/-- Auxiliary invariant: a pending transition's target index is in range. -/
def pendingOk (s : SlideManager.SMState) : Prop :=
  ∀ d, s.pending = some d →
    0 < s.slides.length ∧ 0 ≤ s.currentSlideIndex + d ∧
      s.currentSlideIndex + d < (s.slides.length : ℤ)

/-- Auxiliary invariant: with an empty document the index is 0. -/
def emptyZero (s : SlideManager.SMState) : Prop :=
  s.slides.length = 0 → s.currentSlideIndex = 0

/-- The inductive strengthening of the claimed navigation invariant. -/
def SMInvStrong (s : SlideManager.SMState) : Prop :=
  SMInv s ∧ pendingOk s ∧ emptyZero s

/-- Helper: `createCurrentSlide` never changes the navigation fields, only
the generation counter. -/
theorem createCurrentSlide_state (s t : SlideManager.SMState) (o : SlideObjects)
    (h : SlideManager.createCurrentSlide s = some (t, o)) :
    t.slides = s.slides ∧ t.currentSlideIndex = s.currentSlideIndex ∧
      t.pending = s.pending ∧ t.isTransitioning = s.isTransitioning := by
  rw [SlideManager.createCurrentSlide] at h
  split at h
  · simp only [Option.some_inj, Prod.mk.injEq] at h
    rw [← h.1]
    exact ⟨rfl, rfl, rfl, rfl⟩
  · split at h
    · exact absurd h (by simp)
    · split at h
      · exact absurd h (by simp)
      · simp only [Option.some_inj, Prod.mk.injEq] at h
        rw [← h.1]
        exact ⟨rfl, rfl, rfl, rfl⟩

/-- C2 amended: the invariant `0 <= currentIndex < slides.length` (with its
inductive strengthening: any pending transition targets an in-range index,
and an empty document has index 0) holds initially and is preserved by every
operation except `loadMarkdown`; `loadMarkdown` replaces the document
without touching `currentIndex` and can violate the invariant when the new
document has at most `currentIndex` slides (see the counterexample). -/
theorem c2_amended_invariant :
    SMInvStrong SlideManager.initial ∧
    ∀ (s s' : SlideManager.SMState) (op : SlideManager.SMOp),
      SMInvStrong s → op.isLoad = false → SlideManager.step s op = some s' →
        SMInvStrong s' := by
  constructor
  · refine ⟨by simp [SMInv, SlideManager.initial], ?_, fun _ => rfl⟩
    intro d hd
    simp [SlideManager.initial] at hd
  · rintro s s' op ⟨hInv, hPend, hZero⟩ hLoad hStep
    cases op with
    | loadMarkdown md => simp [SlideManager.SMOp.isLoad] at hLoad
    | createCurrent =>
      simp only [SlideManager.step] at hStep
      rcases Option.map_eq_some'.mp hStep with ⟨p, hc, rfl⟩
      obtain ⟨h1, h2, h3, h4⟩ := createCurrentSlide_state s p.1 p.2 (by rw [hc])
      exact ⟨fun hlen => by
               obtain ⟨a, b⟩ := hInv (by rw [← h1]; exact hlen)
               exact ⟨by rw [h2]; exact a, by rw [h2, h1]; exact b⟩,
             fun d hd => by
               rw [h3] at hd
               obtain ⟨a, b, c⟩ := hPend d hd
               exact ⟨by rw [h1]; exact a, by rw [h2]; exact b,
                      by rw [h2, h1]; exact c⟩,
             fun hlen => by rw [h2]; exact hZero (by rw [← h1]; exact hlen)⟩
    | reloadCurrent =>
      simp only [SlideManager.step] at hStep
      rcases Option.map_eq_some'.mp hStep with ⟨p, hc, rfl⟩
      obtain ⟨h1, h2, h3, h4⟩ := createCurrentSlide_state s p.1 p.2 (by rw [hc])
      exact ⟨fun hlen => by
               obtain ⟨a, b⟩ := hInv (by rw [← h1]; exact hlen)
               exact ⟨by rw [h2]; exact a, by rw [h2, h1]; exact b⟩,
             fun d hd => by
               rw [h3] at hd
               obtain ⟨a, b, c⟩ := hPend d hd
               exact ⟨by rw [h1]; exact a, by rw [h2]; exact b,
                      by rw [h2, h1]; exact c⟩,
             fun hlen => by rw [h2]; exact hZero (by rw [← h1]; exact hlen)⟩
    | requestNext =>
      simp only [SlideManager.step] at hStep
      split at hStep
      · rw [Option.some_inj] at hStep
        subst hStep
        exact ⟨hInv, hPend, hZero⟩
      · rename_i hcond
        rw [Option.some_inj] at hStep
        subst hStep
        simp only [Bool.or_eq_true, Bool.not_eq_true', not_or] at hcond
        have hnext : s.currentSlideIndex < (s.slides.length : ℤ) - 1 := by
          have h1 := hcond.1
          revert h1
          rcases hb : SlideManager.canGoNext s with _ | _
          · intro h1; exact absurd rfl h1
          · intro _
            rw [SlideManager.canGoNext, decide_eq_true_eq] at hb
            exact hb
        have hlen : 0 < s.slides.length := by
          by_contra hc
          have h0 : s.slides.length = 0 := by omega
          have := hZero h0
          omega
        obtain ⟨ha, hb⟩ := hInv hlen
        refine ⟨fun _ => ⟨ha, hb⟩, ?_, fun h0 => ?_⟩
        · intro d hd
          have hd2 : (1 : ℤ) = d := Option.some_inj.mp hd
          subst hd2
          exact ⟨hlen,
            by show (0 : ℤ) ≤ s.currentSlideIndex + 1; omega,
            by show s.currentSlideIndex + 1 < (s.slides.length : ℤ); omega⟩
        · have h0b : s.slides.length = 0 := h0
          omega
    | requestPrev =>
      simp only [SlideManager.step] at hStep
      split at hStep
      · rw [Option.some_inj] at hStep
        subst hStep
        exact ⟨hInv, hPend, hZero⟩
      · rename_i hcond
        rw [Option.some_inj] at hStep
        subst hStep
        simp only [Bool.or_eq_true, Bool.not_eq_true', not_or] at hcond
        have hprev : (0 : ℤ) < s.currentSlideIndex := by
          have h1 := hcond.1
          revert h1
          rcases hb : SlideManager.canGoPrev s with _ | _
          · intro h1; exact absurd rfl h1
          · intro _
            rw [SlideManager.canGoPrev, decide_eq_true_eq] at hb
            exact hb
        have hlen : 0 < s.slides.length := by
          by_contra hc
          have h0 : s.slides.length = 0 := by omega
          have := hZero h0
          omega
        obtain ⟨ha, hb⟩ := hInv hlen
        refine ⟨fun _ => ⟨ha, hb⟩, ?_, fun h0 => ?_⟩
        · intro d hd
          have hd2 : (-1 : ℤ) = d := Option.some_inj.mp hd
          subst hd2
          exact ⟨hlen,
            by show (0 : ℤ) ≤ s.currentSlideIndex + (-1); omega,
            by show s.currentSlideIndex + (-1) < (s.slides.length : ℤ); omega⟩
        · have h0b : s.slides.length = 0 := h0
          omega
    | complete =>
      simp only [SlideManager.step] at hStep
      rcases hp : s.pending with _ | d
      · rw [hp] at hStep
        exact absurd hStep (by simp)
      · rw [hp] at hStep
        simp only [] at hStep
        rcases Option.map_eq_some'.mp hStep with ⟨p, hc, rfl⟩
        obtain ⟨hlen, hlo, hhi⟩ := hPend d hp
        obtain ⟨h1, h2, _, _⟩ :=
          createCurrentSlide_state _ p.1 p.2 (by rw [hc])
        have h1b : p.1.slides = s.slides := h1
        have h2b : p.1.currentSlideIndex = s.currentSlideIndex + d := h2
        refine ⟨fun _ => ⟨?_, ?_⟩, ?_, fun h0 => ?_⟩
        · show (0 : ℤ) ≤ p.1.currentSlideIndex
          omega
        · show p.1.currentSlideIndex < (p.1.slides.length : ℤ)
          rw [h1b, h2b]
          exact hhi
        · intro e he
          exact absurd he (by simp)
        · have h0b : p.1.slides.length = 0 := h0
          rw [h1b] at h0b
          omega

/-- C2 witness: the initial state satisfies the strengthened invariant, and
a denied transition request from it preserves it. -/
theorem c2_amended_witness : SMInvStrong SlideManager.initial :=
  c2_amended_invariant.2 SlideManager.initial SlideManager.initial .requestNext
    c2_amended_invariant.1 rfl (by decide)

/-! ## Totality of the parser (C3) -/

/-- The explicit-marker continuation loop returns a result whenever its fuel
covers the remaining lines, and never moves the index backwards or past the
last line. -/
theorem contLoop_total (stopN : Bool) (lines : List Line) :
    ∀ (fuel i : Nat) (content : Line), i < lines.length →
      lines.length ≤ i + fuel →
      ∃ c j, MarkdownParser.contLoop stopN lines fuel content i = some (c, j) ∧
        i ≤ j ∧ j < lines.length := by
  intro fuel
  induction fuel with
  | zero => intro i c h1 h2; omega
  | succ fuel ih =>
    intro i content h1 h2
    rw [MarkdownParser.contLoop]
    by_cases hg : i + 1 < lines.length
    · rw [if_pos hg]
      dsimp only
      split
      · rw [List.getElem?_eq_getElem hg]
        dsimp only
        split
        all_goals
          split
          · exact ⟨_, i, rfl, le_refl i, h1⟩
          · obtain ⟨c, j, hc, hj1, hj2⟩ := ih (i + 1) _ hg (by omega)
            exact ⟨c, j, hc, by omega, hj2⟩
      · exact ⟨content, i, rfl, le_refl i, h1⟩
    · rw [if_neg hg]
      exact ⟨content, i, rfl, le_refl i, h1⟩

/-- The paragraph continuation loop is total the same way. -/
theorem paraLoop_total (lines : List Line) :
    ∀ (fuel i : Nat) (content : Line), i < lines.length →
      lines.length ≤ i + fuel →
      ∃ c j, MarkdownParser.paraLoop lines fuel content i = some (c, j) ∧
        i ≤ j ∧ j < lines.length := by
  intro fuel
  induction fuel with
  | zero => intro i c h1 h2; omega
  | succ fuel ih =>
    intro i content h1 h2
    rw [MarkdownParser.paraLoop]
    by_cases hg : i + 1 < lines.length
    · rw [if_pos hg]
      dsimp only
      split
      · rw [List.getElem?_eq_getElem hg]
        dsimp only
        split
        · exact ⟨_, i, rfl, le_refl i, h1⟩
        · obtain ⟨c, j, hc, hj1, hj2⟩ := ih (i + 1) _ hg (by omega)
          exact ⟨c, j, hc, by omega, hj2⟩
      · exact ⟨content, i, rfl, le_refl i, h1⟩
    · rw [if_neg hg]
      exact ⟨content, i, rfl, le_refl i, h1⟩

/-- The table data-row loop is total whenever its fuel covers the remaining
lines, and only moves the index forwards, at most to the end. -/
theorem tableRows_total (lines : List Line) :
    ∀ (fuel i : Nat), i ≤ lines.length → lines.length < i + fuel →
      ∃ rows j, MarkdownParser.tableRows lines fuel i = some (rows, j) ∧
        i ≤ j ∧ j ≤ lines.length := by
  intro fuel
  induction fuel with
  | zero => intro i h1 h2; omega
  | succ fuel ih =>
    intro i h1 h2
    rw [MarkdownParser.tableRows]
    by_cases hg : i < lines.length
    · rw [if_pos hg, List.getElem?_eq_getElem hg]
      dsimp only
      split
      · obtain ⟨rows, j, hr, hj1, hj2⟩ := ih (i + 1) (by omega) (by omega)
        rw [hr]
        exact ⟨_, j, rfl, by omega, hj2⟩
      · exact ⟨[], i, rfl, le_refl i, h1⟩
    · rw [if_neg hg]
      exact ⟨[], i, rfl, le_refl i, h1⟩

/-- The main line loop of `parseSlide` returns a slide whenever its fuel
covers the remaining lines: every branch advances the index. -/
theorem parseLoop_total (lines : List Line) :
    ∀ (fuel i : Nat) (inCode : Bool) (codeAcc : List Line)
      (els : List SlideElement) (imgs : List SlideImage)
      (stats : List StaticImage),
      i ≤ lines.length → lines.length < i + fuel →
      ∃ s, MarkdownParser.parseLoop lines fuel i inCode codeAcc els imgs stats =
        some s := by
  intro fuel
  induction fuel with
  | zero => intro i _ _ _ _ _ h1 h2; omega
  | succ fuel ih =>
    intro i inCode codeAcc els imgs stats h1 h2
    rw [MarkdownParser.parseLoop]
    by_cases hg : i < lines.length
    · rw [if_pos hg, List.getElem?_eq_getElem hg]
      dsimp only
      split
      · -- fence line
        split
        · exact ih (i + 1) false [] _ imgs stats (by omega) (by omega)
        · exact ih (i + 1) true codeAcc els imgs stats (by omega) (by omega)
      · split
        · -- inside a code block
          exact ih (i + 1) true _ els imgs stats (by omega) (by omega)
        · split
          · -- blank line
            exact ih (i + 1) false codeAcc els imgs stats (by omega) (by omega)
          · -- crystal image?
            split
            · exact ih (i + 1) false codeAcc els _ stats (by omega) (by omega)
            · -- static image?
              split
              · exact ih (i + 1) false codeAcc els imgs _ (by omega) (by omega)
              · -- heading?
                split
                · rename_i lvl c0 _
                  obtain ⟨c, j, hc, hj1, hj2⟩ :=
                    contLoop_total false lines fuel i c0 hg (by omega)
                  rw [hc]
                  exact ih (j + 1) false codeAcc _ imgs stats (by omega) (by omega)
                · -- bullet?
                  split
                  · rename_i ind c0 _
                    obtain ⟨c, j, hc, hj1, hj2⟩ :=
                      contLoop_total true lines fuel i c0 hg (by omega)
                    rw [hc]
                    exact ih (j + 1) false codeAcc _ imgs stats (by omega) (by omega)
                  · -- numbered?
                    split
                    · rename_i ind num c0 _
                      obtain ⟨c, j, hc, hj1, hj2⟩ :=
                        contLoop_total true lines fuel i c0 hg (by omega)
                      rw [hc]
                      exact ih (j + 1) false codeAcc _ imgs stats (by omega) (by omega)
                    · -- table?
                      split
                      · rename_i c _
                        have hi2 : ∃ i2,
                            (match lines[i + 1]? with
                             | some l2 => if sepLine l2 then i + 1 + 1 else i + 1
                             | none => i + 1) = i2 ∧
                              i + 1 ≤ i2 ∧ i2 ≤ lines.length := by
                          rcases hsep : lines[i + 1]? with _ | l2
                          · exact ⟨i + 1, rfl, le_refl _, by omega⟩
                          · have hlt : i + 1 < lines.length :=
                              (List.getElem?_eq_some.mp hsep).1
                            by_cases hsl : sepLine l2 = true
                            · refine ⟨i + 2, ?_, by omega, by omega⟩
                              show (if sepLine l2 = true then i + 1 + 1
                                    else i + 1) = i + 2
                              rw [if_pos hsl]
                            · refine ⟨i + 1, ?_, le_refl _, by omega⟩
                              show (if sepLine l2 = true then i + 1 + 1
                                    else i + 1) = i + 1
                              rw [if_neg hsl]
                        obtain ⟨i2, hi2eq, hi2a, hi2b⟩ := hi2
                        rw [hi2eq]
                        obtain ⟨rows, j, hr, hj1, hj2⟩ :=
                          tableRows_total lines fuel i2 hi2b (by omega)
                        rw [hr]
                        exact ih j false codeAcc _ imgs stats hj2 (by omega)
                      · -- paragraph
                        obtain ⟨c, j, hc, hj1, hj2⟩ :=
                          paraLoop_total lines fuel i (jsTrim lines[i]) hg (by omega)
                        rw [hc]
                        exact ih (j + 1) false codeAcc _ imgs stats (by omega) (by omega)
    · rw [if_neg hg]
      exact ⟨_, rfl⟩

/-- `parseSlide` on a pre-split line list always returns a slide. -/
theorem parseSlideLines_total (lines : List Line) :
    ∃ s, MarkdownParser.parseSlideLines lines = some s :=
  parseLoop_total lines (lines.length + 1) 0 false [] [] [] []
    (by omega) (by omega)

/-- `parseSlide` always returns a slide. -/
theorem parseSlide_total (text : Line) :
    ∃ s, MarkdownParser.parseSlide text = some s :=
  parseSlideLines_total (jsSplit '\n' text)

/-- Mapping `parseSlide` over any chunk list never throws. -/
theorem parseAll_total (ts : List Line) :
    ∃ ds, MarkdownParser.parseAll ts = some ds := by
  induction ts with
  | nil => exact ⟨[], rfl⟩
  | cons t ts ih =>
    obtain ⟨s, hs⟩ := parseSlide_total t
    obtain ⟨ds, hds⟩ := ih
    exact ⟨s :: ds, by rw [MarkdownParser.parseAll, hs, hds]; rfl⟩

/-- C3: `parse` is total — for every input text, including malformed markup,
unbalanced emphasis markers and unterminated constructs, the parser
terminates (the fuelled loops never exhaust their fuel) and returns a
Document, a list of Slides, without raising. -/
theorem c3_parse_total (markdown : Line) :
    ∃ d : List Slide, MarkdownParser.parse markdown = some d := by
  rw [MarkdownParser.parse]
  exact parseAll_total _

/-! ## C10: unterminated code fences are discarded -/

/-- A chunk whose code fence is never closed: only the heading before the
fence survives. -/
def c10chunk : Line := "# title\n\x60\x60\x60js\nconst x = 1;\nmore".toList

/-- C10: if the parser is inside an open code block and no remaining line
starts a fence, it accumulates every remaining line into the (discarded)
code buffer and finishes with exactly the elements, images and static images
gathered so far — no Code element is emitted and earlier elements are
unaffected.  The closed conjunct shows it end-to-end: a chunk that ends
inside an open fence parses to just the heading before the fence. -/
theorem c10_unterminated_fence :
    (∀ (lines : List Line) (fuel i : Nat) (codeAcc : List Line)
      (els : List SlideElement) (imgs : List SlideImage)
      (stats : List StaticImage),
      i ≤ lines.length → lines.length < i + fuel →
      (∀ j l, i ≤ j → lines[j]? = some l → startsWithL l fence3 = false) →
      MarkdownParser.parseLoop lines fuel i true codeAcc els imgs stats =
        some { elements := els, images := imgs, staticImages := stats }) ∧
    MarkdownParser.parseSlide c10chunk =
      some { elements := [{ type := .heading, content := "title".toList,
                            level := some 1 }],
             images := [], staticImages := [] } := by
  constructor
  · intro lines fuel
    induction fuel with
    | zero => intro i _ _ _ _ h1 h2 _; omega
    | succ fuel ih =>
      intro i codeAcc els imgs stats h1 h2 hfence
      rw [MarkdownParser.parseLoop]
      by_cases hg : i < lines.length
      · rw [if_pos hg, List.getElem?_eq_getElem hg]
        dsimp only
        rw [hfence i lines[i] (le_refl i) (List.getElem?_eq_getElem hg)]
        simp only [Bool.false_eq_true, if_false, if_true]
        exact ih (i + 1) _ els imgs stats (by omega) (by omega)
          (fun j l hj hl => hfence j l (by omega) hl)
      · rw [if_neg hg]
  · decide

/-- C10 witness: a concrete instantiation of the loop statement — in an open
code block with one accumulated element and one remaining non-fence line,
the parse finishes with only that element. -/
theorem c10_witness :
    MarkdownParser.parseLoop [['x']] 2 0 true [['y']]
        [{ type := .paragraph, content := ['p'] }] [] [] =
      some { elements := [{ type := .paragraph, content := ['p'] }],
             images := [], staticImages := [] } :=
  c10_unterminated_fence.1 [['x']] 2 0 [['y']]
    [{ type := .paragraph, content := ['p'] }] [] [] (by decide) (by decide)
    (fun j l _ hl => by
      cases j with
      | zero =>
        simp at hl
        subst hl
        decide
      | succ n => simp at hl)

theorem jsSplit_append_sep (sep : Char) (l : Line) (h : sep ∉ l) :
    jsSplit sep (l ++ [sep]) = [l, []] := by
  induction l with
  | nil => simp [jsSplit]
  | cons c t ih =>
    simp only [List.mem_cons, not_or] at h
    rw [List.cons_append, jsSplit, if_neg (fun e => h.1 e.symm), ih h.2]

theorem convertBoldF_no_star :
    ∀ (fuel : Nat) (l : Line), '*' ∉ l → convertBoldF fuel l = l := by
  intro fuel
  induction fuel with
  | zero => intro l _; rfl
  | succ fuel ih =>
    intro l h
    cases l with
    | nil => rfl
    | cons c r =>
      simp only [List.mem_cons, not_or] at h
      have hcc : ¬(c = '*') := fun e => h.1 (Eq.symm e)
      show (if c = '*' then _ else c :: convertBoldF fuel r) = c :: r
      rw [if_neg hcc, ih r h.2]

theorem italicPassF_no_star :
    ∀ (fuel : Nat) (l : Line), '*' ∉ l → italicPassF fuel l = l := by
  intro fuel
  induction fuel with
  | zero => intro l _; rfl
  | succ fuel ih =>
    intro l h
    cases l with
    | nil => rfl
    | cons c r =>
      simp only [List.mem_cons, not_or] at h
      have hcc : ¬(c = '*') := fun e => h.1 (Eq.symm e)
      show (if c = '*' then _ else c :: italicPassF fuel r) = c :: r
      rw [if_neg hcc, ih r h.2]

theorem convertItalic_no_star (l : Line) (h : '*' ∉ l) : convertItalic l = l := by
  rw [convertItalic, convertBold, convertBoldF_no_star _ _ h, italicPass,
    italicPassF_no_star _ _ h]

theorem trimRight_cons (c : Char) (l : Line) (h : jsWs c = false) :
    trimRight (c :: l) = c :: trimRight l := by
  rw [trimRight]
  rcases h' : trimRight l with _ | ⟨d, r⟩
  · simp [h]
  · simp

set_option maxRecDepth 10000

/-- C7: a bullet line whose content ends in two trailing spaces, immediately
followed by a blank line, parses to a single bullet element whose content is
the bullet text with the two-space marker removed and with no trailing
newline: the branch strips the marker before peeking, and the blank next
line stops the continuation. -/
theorem c7_bullet_blank_boundary (c : Char) (s : Line)
    (hws : jsWs c = false) (hstar : '*' ∉ c :: s) (hnl : '\n' ∉ c :: s) :
    MarkdownParser.parseSlide (['-', ' '] ++ (c :: s) ++ [' ', ' ', '\n']) =
      some { elements := [{ type := .bullet, content := c :: s,
                            level := some 0 }],
             images := [], staticImages := [] } ∧
    '\n' ∉ c :: s := by
  refine ⟨?_, hnl⟩
  have hsplit : jsSplit '\n' (['-', ' '] ++ (c :: s) ++ [' ', ' ', '\n']) =
      [['-', ' '] ++ (c :: s) ++ [' ', ' '], []] := by
    have : ['-', ' '] ++ (c :: s) ++ [' ', ' ', '\n'] =
        (['-', ' '] ++ (c :: s) ++ [' ', ' ']) ++ ['\n'] := by simp
    rw [this, jsSplit_append_sep]
    simp only [List.mem_cons, not_or] at hnl
    intro hm
    simp only [List.append_assoc, List.mem_append, List.mem_cons,
      List.not_mem_nil, or_false] at hm
    rcases hm with (h | h) | (h | h) | (h | h)
    · exact absurd h (by decide)
    · exact absurd h (by decide)
    · exact hnl.1 h
    · exact hnl.2 h
    · exact absurd h (by decide)
    · exact absurd h (by decide)
  have hL : ['-', ' '] ++ (c :: s) ++ [' ', ' '] =
      '-' :: ' ' :: c :: (s ++ [' ', ' ']) := by simp
  rw [MarkdownParser.parseSlide, hsplit, hL, MarkdownParser.parseSlideLines]
  have htrim : jsTrim ('-' :: ' ' :: c :: (s ++ [' ', ' '])) =
      '-' :: trimRight (' ' :: c :: (s ++ [' ', ' '])) :=
    trimRight_cons '-' _ rfl
  have hwpr : wsPlusRest (' ' :: c :: (s ++ [' ', ' '])) =
      some (c :: (s ++ [' ', ' '])) := by
    rw [wsPlusRest]
    simp only [List.dropWhile_cons]
    rw [show jsWs ' ' = true from rfl, hws]
    simp
  have hewB : endsWithL (c :: (s ++ [' ', ' '])) ['\\'] = false := by
    rw [endsWithL, show (c :: (s ++ [' ', ' '])).reverse =
      ' ' :: ' ' :: (s.reverse ++ [c]) from by simp]
    rfl
  have hewS : endsWithL (c :: (s ++ [' ', ' '])) [' ', ' '] = true := by
    rw [endsWithL, show (c :: (s ++ [' ', ' '])).reverse =
      ' ' :: ' ' :: (s.reverse ++ [c]) from by simp]
    simp [List.isPrefixOf]
  have hdl : (c :: (s ++ [' ', ' '])).dropLast.dropLast = c :: s := by
    rw [show c :: (s ++ [' ', ' ']) = ((c :: s) ++ [' ']) ++ [' '] from by simp]
    rw [List.dropLast_concat, List.dropLast_concat]
  have hconv : convertItalic (c :: s) = c :: s := convertItalic_no_star _ hstar
  have hfence : startsWithL ('-' :: ' ' :: c :: (s ++ [' ', ' '])) fence3 = false := rfl
  have hblank : (jsTrim ('-' :: ' ' :: c :: (s ++ [' ', ' '])) == []) = false := by
    rw [htrim]; rfl
  have hcm : crystalImageMatch (jsTrim ('-' :: ' ' :: c :: (s ++ [' ', ' ']))) = none := by
    rw [htrim]; rfl
  have hsm : staticImageMatch (jsTrim ('-' :: ' ' :: c :: (s ++ [' ', ' ']))) = none := by
    rw [htrim]; rfl
  have hhm : headingMatch ('-' :: ' ' :: c :: (s ++ [' ', ' '])) = none := rfl
  have hbm : bulletMatch ('-' :: ' ' :: c :: (s ++ [' ', ' '])) =
      some (0, c :: (s ++ [' ', ' '])) := by
    rw [bulletMatch]
    simp only [List.takeWhile_cons, show jsWs '-' = false from rfl,
      Bool.false_eq_true, if_false, List.takeWhile_nil, List.length_nil,
      List.drop_zero, hwpr, Option.map_some']
    rfl
  have hcont : MarkdownParser.contLoop true
      ['-' :: ' ' :: c :: (s ++ [' ', ' ']), []] 2 (c :: (s ++ [' ', ' '])) 0 =
      some (c :: s, 0) := by
    rw [MarkdownParser.contLoop]
    simp only [List.length_cons, List.length_nil, hewB, hewS,
      List.getElem?_cons_succ, List.getElem?_cons_zero, Bool.false_eq_true,
      if_false, Bool.false_or, if_true,
      show MarkdownParser.stopperB ([] : Line) = true from rfl, hdl]
    rfl
  simp only [List.length_cons, List.length_nil]
  rw [MarkdownParser.parseLoop]
  simp only [List.getElem?_cons_zero, List.getElem?_cons_succ, hfence, hblank,
    hcm, hsm, hhm, hbm, hcont, hconv, Bool.false_eq_true, if_false]
  rw [if_pos (by simp :
    0 < (['-' :: ' ' :: c :: (s ++ [' ', ' ']), []] : List Line).length)]
  rfl

/-- C7 witness: the concrete chunk `- hi(two spaces)(newline)` parses to the
single bullet `hi` with no trailing newline. -/
theorem c7_witness :
    MarkdownParser.parseSlide (['-', ' '] ++ ('h' :: ['i']) ++ [' ', ' ', '\n']) =
      some { elements := [{ type := .bullet, content := 'h' :: ['i'],
                            level := some 0 }],
             images := [], staticImages := [] } ∧ '\n' ∉ 'h' :: ['i'] :=
  c7_bullet_blank_boundary 'h' ['i'] (by decide) (by decide) (by decide)

/-- Spec-style description: the header cells of a table header line with
content `c` between the pipes — pipe-split, trimmed, all empties removed. -/
def headerCellsSpec (c : Line) : List Line :=
  ((jsSplit '|' c).map jsTrim).filter (fun h => h ≠ [])

/-- Spec-style description: a line is a data row when its trimmed text
matches `^\|(.+)\|$`. -/
def isRowLine (l : Line) : Bool := (rawTableContent (jsTrim l)).isSome

/-- Spec-style description: the cells of one data row — the trimmed line
with the enclosing pipes stripped, pipe-split, trimmed, empties kept. -/
def rowCellsSpec (l : Line) : List Line :=
  match rawTableContent (jsTrim l) with
  | some c => (jsSplit '|' c).map jsTrim
  | none => []

/-- Spec-style description: drop the alignment separator row if present. -/
def dropSepSpec (rest : List Line) : List Line :=
  match rest with
  | r :: rs => if sepLine r then rs else r :: rs
  | [] => []

/-- Spec-style description: the data rows of a table whose header line is
followed by `rest` — consume matching lines up to the first non-row line. -/
def tableRowsSpec (rest : List Line) : List (List Line) :=
  ((dropSepSpec rest).takeWhile isRowLine).map rowCellsSpec

/-- The data-row loop consumes exactly the leading run of row lines and
produces their spec cells. -/
theorem tableRows_spec (lines : List Line) :
    ∀ (fuel i : Nat), i ≤ lines.length → lines.length < i + fuel →
      MarkdownParser.tableRows lines fuel i =
        some ((((lines.drop i).takeWhile isRowLine).map rowCellsSpec),
          i + ((lines.drop i).takeWhile isRowLine).length) := by
  intro fuel
  induction fuel with
  | zero => intro i h1 h2; omega
  | succ fuel ih =>
    intro i h1 h2
    rw [MarkdownParser.tableRows]
    by_cases hg : i < lines.length
    · rw [if_pos hg, List.getElem?_eq_getElem hg]
      dsimp only
      have hdrop : lines.drop i = lines[i] :: lines.drop (i + 1) :=
        List.drop_eq_getElem_cons hg
      rcases hrow : rawTableContent (jsTrim lines[i]) with _ | cv
      · have hrl : isRowLine lines[i] = false := by
          rw [isRowLine, hrow]; rfl
        rw [hdrop, List.takeWhile_cons, hrl]
        simp only [Bool.false_eq_true, if_false, List.map_nil, List.length_nil,
          Nat.add_zero]
      · have hrl : isRowLine lines[i] = true := by
          rw [isRowLine, hrow]; rfl
        show (match MarkdownParser.tableRows lines fuel (i + 1) with
          | some (rows, j) => some (List.map jsTrim (jsSplit '|' cv) :: rows, j)
          | none => none) = _
        rw [ih (i + 1) (by omega) (by omega)]
        rw [hdrop, List.takeWhile_cons, hrl]
        simp only [if_true, List.map_cons, List.length_cons]
        have hcells : rowCellsSpec lines[i] = (jsSplit '|' cv).map jsTrim := by
          rw [rowCellsSpec, hrow]
        rw [hcells]
        have harith : i + 1 + ((lines.drop (i + 1)).takeWhile isRowLine).length =
            i + (((lines.drop (i + 1)).takeWhile isRowLine).length + 1) := by omega
        rw [harith]
    · rw [if_neg hg]
      have hi : i = lines.length := by omega
      rw [hi, List.drop_length]
      rfl

/-- Every successful run of the line loop returns the accumulated elements
as a prefix of the final element list. -/
theorem parseLoop_elements_mono (lines : List Line) :
    ∀ (fuel i : Nat) (inCode : Bool) (codeAcc : List Line)
      (els : List SlideElement) (imgs : List SlideImage)
      (stats : List StaticImage) (s : Slide),
      MarkdownParser.parseLoop lines fuel i inCode codeAcc els imgs stats =
        some s →
      ∃ tail, s.elements = els ++ tail := by
  intro fuel
  induction fuel with
  | zero => intro i _ _ _ _ _ s h; exact absurd h (by rw [MarkdownParser.parseLoop]; simp)
  | succ fuel ih =>
    intro i inCode codeAcc els imgs stats s h
    rw [MarkdownParser.parseLoop] at h
    by_cases hg : i < lines.length
    · rw [if_pos hg] at h
      rcases hline : lines[i]? with _ | line
      · rw [hline] at h; exact absurd h (by simp)
      · rw [hline] at h
        dsimp only at h
        split at h
        · split at h
          · obtain ⟨tail, ht⟩ := ih _ _ _ _ _ _ _ h
            exact ⟨_, by rw [ht, List.append_assoc]⟩
          · exact ih _ _ _ _ _ _ _ h
        · split at h
          · exact ih _ _ _ _ _ _ _ h
          · split at h
            · exact ih _ _ _ _ _ _ _ h
            · split at h
              · exact ih _ _ _ _ _ _ _ h
              · split at h
                · exact ih _ _ _ _ _ _ _ h
                · split at h
                  · split at h
                    · obtain ⟨tail, ht⟩ := ih _ _ _ _ _ _ _ h
                      exact ⟨_, by rw [ht, List.append_assoc]⟩
                    · exact absurd h (by simp)
                  · split at h
                    · split at h
                      · obtain ⟨tail, ht⟩ := ih _ _ _ _ _ _ _ h
                        exact ⟨_, by rw [ht, List.append_assoc]⟩
                      · exact absurd h (by simp)
                    · split at h
                      · split at h
                        · obtain ⟨tail, ht⟩ := ih _ _ _ _ _ _ _ h
                          exact ⟨_, by rw [ht, List.append_assoc]⟩
                        · exact absurd h (by simp)
                      · split at h
                        · split at h
                          · obtain ⟨tail, ht⟩ := ih _ _ _ _ _ _ _ h
                            exact ⟨_, by rw [ht, List.append_assoc]⟩
                          · exact absurd h (by simp)
                        · split at h
                          · obtain ⟨tail, ht⟩ := ih _ _ _ _ _ _ _ h
                            exact ⟨_, by rw [ht, List.append_assoc]⟩
                          · exact absurd h (by simp)
    · rw [if_neg hg] at h
      rw [Option.some_inj] at h
      exact ⟨[], by rw [← h]; simp⟩

/-- The length of a `takeWhile` prefix is at most the list's length. -/
theorem takeWhile_length_le (p : Line → Bool) (l : List Line) :
    (l.takeWhile p).length ≤ l.length := by
  induction l with
  | nil => simp
  | cons a t ih =>
    rw [List.takeWhile_cons]
    split
    · simp only [List.length_cons]; omega
    · simp

/-- C5 amended (main): parsing a chunk whose first line is a table line
produces, as first element, a table whose header cells are the pipe-split,
trimmed cells with all empty cells removed, and whose data rows are the
leading run of row lines (after an optional separator row), each row's
cells pipe-split with enclosing pipes stripped, trimmed, empties kept. -/
theorem c5_amended_table_cells (cnt : Line) (rest : List Line) (hcnt : cnt ≠ []) :
    ∃ slide, MarkdownParser.parseSlideLines (('|' :: cnt ++ ['|']) :: rest) =
        some slide ∧
      slide.elements.head? = some
        { type := .table, content := [],
          tableData := some
            { headers := (headerCellsSpec cnt).map convertItalic,
              rows := (tableRowsSpec rest).map (fun r => r.map convertItalic) } } := by
  have htr : jsTrim ('|' :: cnt ++ ['|']) = '|' :: trimRight (cnt ++ ['|']) :=
    trimRight_cons '|' _ rfl
  have hraw : rawTableContent ('|' :: cnt ++ ['|']) = some cnt := by
    show (if 2 ≤ (cnt ++ ['|']).length ∧ (cnt ++ ['|']).getLast? = some '|' then
        some (cnt ++ ['|']).dropLast else none) = some cnt
    rw [if_pos ⟨by simp; exact List.length_pos.mpr hcnt, List.getLast?_concat _⟩,
      List.dropLast_concat]
  have hblank : (jsTrim ('|' :: cnt ++ ['|']) == ([] : Line)) = false := by
    rw [htr]; rfl
  have hcm : crystalImageMatch (jsTrim ('|' :: cnt ++ ['|'])) = none := by
    rw [htr]; rfl
  have hsm : staticImageMatch (jsTrim ('|' :: cnt ++ ['|'])) = none := by
    rw [htr]; rfl
  have finishUp : ∀ (tEl : SlideElement) (i3 : Nat),
      i3 ≤ (('|' :: cnt ++ ['|']) :: rest).length → 1 ≤ i3 →
      ∃ slide, MarkdownParser.parseLoop (('|' :: cnt ++ ['|']) :: rest)
          (rest.length + 1) i3 false [] [tEl] [] [] = some slide ∧
        slide.elements.head? = some tEl := by
    intro tEl i3 hi3 hi1
    obtain ⟨slide, hs⟩ :=
      parseLoop_total (('|' :: cnt ++ ['|']) :: rest) (rest.length + 1) i3
        false [] _ [] [] hi3 (by simp only [List.length_cons]; omega)
    obtain ⟨tail, htail⟩ := parseLoop_elements_mono _ _ _ _ _ _ _ _ _ hs
    exact ⟨slide, hs, by rw [htail]; rfl⟩
  rw [MarkdownParser.parseSlideLines]
  simp only [List.length_cons]
  rw [MarkdownParser.parseLoop]
  rw [if_pos (by simp : 0 < (('|' :: cnt ++ ['|']) :: rest).length)]
  simp only [List.getElem?_cons_zero]
  rw [show startsWithL ('|' :: cnt ++ ['|']) fence3 = false from rfl]
  simp only [Bool.false_eq_true, if_false, hblank, hcm, hsm]
  rw [show headingMatch ('|' :: cnt ++ ['|']) = none from rfl]
  rw [show bulletMatch ('|' :: cnt ++ ['|']) = none from rfl]
  rw [show numberedMatch ('|' :: cnt ++ ['|']) = none from rfl]
  rw [hraw]
  simp only [List.getElem?_cons_succ, List.getElem?_cons_zero]
  rcases rest with _ | ⟨r, rs⟩
  · simp only [List.getElem?_nil]
    rw [tableRows_spec _ _ 1 (by simp) (by simp)]
    simp only [List.drop_succ_cons, List.drop_zero, List.takeWhile_nil,
      List.map_nil, List.length_nil, Nat.add_zero, List.nil_append]
    rw [show tableRowsSpec ([] : List Line) = [] from rfl]
    simp only [List.map_nil]
    apply finishUp
    · simp
    · omega
  · simp only [List.getElem?_cons_zero]
    by_cases hsep : sepLine r = true
    · rw [if_pos hsep]
      rw [tableRows_spec _ _ 2 (by simp) (by simp)]
      simp only [List.drop_succ_cons, List.drop_zero, List.nil_append]
      have hspec : tableRowsSpec (r :: rs) =
          (rs.takeWhile isRowLine).map rowCellsSpec := by
        rw [tableRowsSpec, dropSepSpec, if_pos hsep]
      rw [hspec]
      apply finishUp
      · have := takeWhile_length_le isRowLine rs
        simp only [List.length_cons]
        omega
      · omega
    · rw [if_neg hsep]
      rw [tableRows_spec _ _ 1 (by simp) (by simp)]
      simp only [List.drop_succ_cons, List.drop_zero, List.nil_append]
      have hspec : tableRowsSpec (r :: rs) =
          ((r :: rs).takeWhile isRowLine).map rowCellsSpec := by
        rw [tableRowsSpec, dropSepSpec, if_neg hsep]
      rw [hspec]
      apply finishUp
      · have := takeWhile_length_le isRowLine (r :: rs)
        simp only [List.length_cons] at this ⊢
        omega
      · omega

/-- C5 witness: for the concrete table `|a||b|` with one data row `|x||y|`,
the amended statement gives the table element with headers `["a", "b"]`
(all empties removed) and the row `["x", "", "y"]` (empties kept). -/
theorem c5_amended_witness :
    (MarkdownParser.parseSlideLines
        (('|' :: "a||b".toList ++ ['|']) :: ["|x||y|".toList])).map
        (fun s => s.elements.head?) =
      some (some
        { type := .table, content := [],
          tableData := some
            { headers := [['a'], ['b']],
              rows := [[['x'], [], ['y']]] } }) := by
  obtain ⟨slide, h1, h2⟩ :=
    c5_amended_table_cells ("a||b".toList) (["|x||y|".toList]) (by decide)
  rw [h1, Option.map_some', h2]
  decide
